import Mathlib

/-!
Shallow embedding of the incremental multi-source tabular ingestion engine
(`Database_pipeline`: `AWS_func.py`, `D365_func.py`, `SFTP_func.py`,
`PostgreSQL.py`) and proofs about it.  Python `datetime` values are modelled
as `Int` day numbers (days since 1970-01-01); pandas `DataFrame`s are
modelled as an ordered column-name list plus rows of optional strings
(`none` models a missing/NaN cell); remote collaborators (S3, the OData
endpoint, the token endpoint, SFTP, the database cursor) are oracle
parameters, as the spec treats them as external interfaces.
-/

set_option linter.unusedVariables false

namespace Pipeline

/-- First-occurrence-wins duplicate removal keyed by `f`: the embedding of
pandas `drop_duplicates` (default `keep="first"`); whole-row mode is `f = id`,
declared-key mode projects the key column.  `seen` holds key values already
emitted. -/
def dedupFirstAux {α β : Type} [DecidableEq β] (f : α → β) : List β → List α → List α
  | _, [] => []
  | seen, x :: xs =>
    if f x ∈ seen then dedupFirstAux f seen xs
    else x :: dedupFirstAux f (f x :: seen) xs

/-- pandas `drop_duplicates`, keyed by `f`, keeping the first occurrence. -/
def dedupFirst {α β : Type} [DecidableEq β] (f : α → β) (l : List α) : List α :=
  dedupFirstAux f [] l

/-- MergeDedupEngine, whole-row mode: `pd.concat([existing, new]).drop_duplicates()`
with the existing (persisted) frame first (`AWS_func.py`,
`S3DataFetcher.combine_dataframes`, lines 101-111: `dfs_to_concat.insert(0, existing)`
then `pd.concat(...).drop_duplicates()`). -/
def mergeWholeRow {Row : Type} [DecidableEq Row] (E N : List Row) : List Row :=
  dedupFirst id (E ++ N)

/-- MergeDedupEngine, declared-key mode: concatenation in existing-then-new order
followed by `drop_duplicates(subset=[key])` keeping the first occurrence
(`D365_func.py`, `fetch_all_countries_range`, line 189). -/
def mergeByKey {Row Key : Type} [DecidableEq Key] (k : Row → Key) (E N : List Row) :
    List Row :=
  dedupFirst k (E ++ N)

/-- `S3DataFetcher.combine_dataframes` (`AWS_func.py` lines 99-118) restricted to one
file-type marker: the persisted frame (when its parquet file exists) is inserted at
position 0, the freshly fetched frames follow, an empty accumulation is skipped
(`none`), otherwise the concatenation is deduplicated row-wise. -/
def combineOne {Row : Type} [DecidableEq Row] (existing : Option (List Row))
    (dfs : List (List Row)) : Option (List Row) :=
  let toConcat := (match existing with | some e => [e] | none => []) ++ dfs
  if toConcat.isEmpty then none else some (dedupFirst id toConcat.flatten)

/-! ### Calendar arithmetic

`datetime` values are day numbers; conversions between day numbers and civil
(proleptic Gregorian) dates follow the standard era decomposition, all divisions
acting on non-negative operands. -/

/-- Two-digit zero padding, as `strftime` produces for `%d` and `%m`. -/
def pad2 (n : Nat) : String := if n < 10 then "0" ++ toString n else toString n

/-- Civil (year, month, day) of a day number (days since 1970-01-01). -/
def civilFromDays (z0 : Int) : Int × Int × Int :=
  let z := z0 + 719468
  let era := (if 0 ≤ z then z else z - 146096) / 146097
  let doe := z - era * 146097
  let yoe := (doe - doe / 1460 + doe / 36524 - doe / 146096) / 365
  let y := yoe + era * 400
  let doy := doe - (365 * yoe + yoe / 4 - yoe / 100)
  let mp := (5 * doy + 2) / 153
  let d := doy - (153 * mp + 2) / 5 + 1
  let m := if mp < 10 then mp + 3 else mp - 9
  (if m ≤ 2 then y + 1 else y, m, d)

/-- Day number (days since 1970-01-01) of a civil (year, month, day). -/
def daysFromCivil (y0 m d : Int) : Int :=
  let y := if m ≤ 2 then y0 - 1 else y0
  let era := (if 0 ≤ y then y else y - 399) / 400
  let yoe := y - era * 400
  let mp := if 2 < m then m - 3 else m + 9
  let doy := (153 * mp + 2) / 5 + d - 1
  let doe := yoe * 365 + yoe / 4 - yoe / 100 + doy
  era * 146097 + doe - 719468

/-- `date.strftime("%d-%m-%Y")` (`AWS_func.py` line 52); `%Y` is unpadded, which
agrees with CPython for the four-digit years the pipeline handles. -/
def strftimeDMY (z : Int) : String :=
  match civilFromDays z with
  | (y, m, d) => pad2 d.toNat ++ "-" ++ pad2 m.toNat ++ "-" ++ toString y

/-- ISO rendering of a day number, standing in for the `datetime` object stored in
the `FetchDate` provenance column. -/
def isoDate (z : Int) : String :=
  match civilFromDays z with
  | (y, m, d) => toString y ++ "-" ++ pad2 m.toNat ++ "-" ++ pad2 d.toNat

/-! ### TimeWindowDiscovery / S3 fetch (`AWS_func.py`) -/

/-- The dates visited by `S3DataFetcher.fetch_data` (lines 80-85):
`days = (end - start).days + 1` and `start + timedelta(days=offset)` for
`offset in range(days)`. -/
def enumDates (startD endD : Int) : List Int :=
  List.map (fun o : Nat => startD + (o : Int)) (List.range (endD - startD + 1).toNat)

/-- The artifact-name listing key built by `S3DataFetcher._list_keys` (line 52):
`f"{prefix}-export-{date.strftime('%d-%m-%Y')}"`. -/
def listKeyPref (pfx : String) (d : Int) : String :=
  pfx ++ "-export-" ++ strftimeDMY d

/-- The tables accumulated in `data_blocks[p]` by `S3DataFetcher.fetch_data`
(lines 79-91) for file-type marker `p`: outer loop over buckets, then days,
then the keys the object store lists for the constructed name; `parseZip`
models `_fetch_and_parse` (bucket, key, country ↦ decoded tables).  An empty
key listing contributes nothing (`continue`). -/
def blocksFor {Tab : Type} (buckets : List (String × String)) (startD endD : Int)
    (listKeys : String → String → List String)
    (parseZip : String → String → String → List Tab) (p : String) : List Tab :=
  buckets.flatMap (fun bc =>
    (enumDates startD endD).flatMap (fun d =>
      (listKeys bc.1 (listKeyPref p d)).flatMap (fun key => parseZip bc.1 key bc.2)))

/-- `S3DataFetcher.fetch_data` (lines 70-91): resets `data_blocks` and fills it per
file-type marker. -/
def s3_fetch_data {Tab : Type} (buckets : List (String × String)) (pfxs : List String)
    (startD endD : Int) (listKeys : String → String → List String)
    (parseZip : String → String → String → List Tab) : List (String × List Tab) :=
  pfxs.map (fun p => (p, blocksFor buckets startD endD listKeys parseZip p))

/-! ### SFTP window filtering (`SFTP_func.py`) -/

/-- Structural split of a character list on a separator (accumulator holds the
current part reversed).  Used to model Python `str.split(sep)` for the
single-character separators the pipeline uses; empty parts are preserved, as in
Python. -/
def splitOnCharAux (c : Char) : List Char → List Char → List (List Char)
  | [], acc => [acc.reverse]
  | x :: xs, acc =>
    if x = c then acc.reverse :: splitOnCharAux c xs []
    else splitOnCharAux c xs (x :: acc)

/-- Python `s.split(c)` for a one-character separator. -/
def splitOnChar (c : Char) (s : String) : List String :=
  (splitOnCharAux c s.toList []).map String.mk

/-- Numeric value of a digit string (only applied after an all-digit check). -/
def digitsToNat (l : List Char) : Nat :=
  l.foldl (fun n c => n * 10 + (c.toNat - 48)) 0

/-- A token of `lo`-`hi` digits, as the strptime directives accept. -/
def digitsOk (lo hi : Nat) (t : String) : Bool :=
  decide (lo ≤ t.length) && decide (t.length ≤ hi) && t.toList.all Char.isDigit

/-- Does `needle` occur at the head of `hay`? (list-level string matching). -/
def listStarts {α : Type} [DecidableEq α] : List α → List α → Bool
  | [], _ => true
  | _ :: _, [] => false
  | a :: as, b :: bs => a = b && listStarts as bs

/-- Does `needle` occur contiguously anywhere in `hay`?  This is Python
`needle in hay` on strings. -/
def listSub {α : Type} [DecidableEq α] (needle : List α) : List α → Bool
  | [] => needle.isEmpty
  | b :: bs => listStarts needle (b :: bs) || listSub needle bs

/-- Gregorian leap year. -/
def isLeap (y : Nat) : Bool := y % 4 == 0 && (y % 100 != 0 || y % 400 == 0)

/-- Days in a month. -/
def daysInMonth (y m : Nat) : Nat :=
  if m = 2 then (if isLeap y then 29 else 28)
  else if m = 4 ∨ m = 6 ∨ m = 9 ∨ m = 11 then 30 else 31

/-- `datetime.strptime(s, "%Y-%m-%d")`, returning the parsed day number, `none` when
parsing raises `ValueError`: `%Y` matches exactly 4 digits, `%m` and `%d` 1-2
digits, the month must be 1-12 and the day valid for the (proleptic Gregorian)
month. -/
def parseYMD (s : String) : Option Int :=
  match splitOnChar '-' s with
  | [ys, ms, ds] =>
    if digitsOk 4 4 ys && digitsOk 1 2 ms && digitsOk 1 2 ds then
      let y := digitsToNat ys.toList
      let m := digitsToNat ms.toList
      let d := digitsToNat ds.toList
      if 1 ≤ y ∧ 1 ≤ m ∧ m ≤ 12 ∧ 1 ≤ d ∧ d ≤ daysInMonth y m then
        some (daysFromCivil y m d)
      else none
    else none
  | _ => none

/-- `file.split("_")[-1]`: the token after the last underscore (the whole name when
no underscore occurs). -/
def lastTok (f : String) : String := (splitOnChar '_' f).getLastD ""

/-- `SFTPDataFetcher._filter_files_by_date` (`SFTP_func.py` lines 40-51): keep the
files whose name contains the configured marker string and whose trailing token
parses as a date inside the window — a parse failure is swallowed (`except:
continue`) — then return them sorted.  Python `sorted` and insertion sort agree
because string order is linear. -/
def filter_files_by_date (filePfx : String) (startD endD : Int)
    (files : List String) : List String :=
  List.insertionSort (fun a b : String => a ≤ b)
    (files.filter (fun f =>
      listSub filePfx.toList f.toList &&
        match parseYMD (lastTok f) with
        | some d => decide (startD ≤ d ∧ d ≤ endD)
        | none => false))

/-! ### BlockSegmenter (`SFTP_func.py`, `fetch_blockdata`, lines 119-139)

Raw rows carry the pipe-delimited composite in their first column and the block
tag in their second; a block's columns come from the first matching row.  pandas
`str.split("|", expand=True)` pads ragged rows to the widest row's field count;
`naStr` is the string the padding marker renders to when the header row is passed
through `astype(str)` (the data rows keep the raw padding, modelled as a missing
cell, which compares unequal to every string, as NaN/None do in pandas). -/

/-- A typed block table: payload-derived column names plus positional data rows. -/
structure Block where
  header : List String
  rows : List (List String)
deriving DecidableEq, Repr

/-- Split one composite first-column string on the pipe character. -/
def splitPipe (s : String) : List String := splitOnChar '|' s

/-- Pad a list on the right to width `w` with `fill`. -/
def padTo (l : List String) (w : Nat) (fill : String) : List String :=
  l ++ List.replicate (w - l.length) fill

/-- The fixed eight-tag vocabulary (`SFTP_func.py` line 127). -/
def blockKeys : List String := ["SUM", "OTS", "CHR", "CMI", "CTD", "CDC", "MID", "KDS"]

/-- The first-column strings of the rows whose second column equals tag `k`
(`raw_df[raw_df.iloc[:, 1] == key]`). -/
def matchRows (raw : List (String × String)) (k : String) : List String :=
  (raw.filter (fun rc => rc.2 == k)).map Prod.fst

/-- Widest field count among the split rows (`expand=True` width). -/
def maxWidth (cells : List String) : Nat :=
  ((cells.map (fun c => (splitPipe c).length)).foldl Nat.max 0)

/-- Build a block from the matching rows: split each on `|`, take the first split
row (padded to the table width) as the header (`split_cols.columns =
split_cols.iloc[0].astype(str)`), the rest as data (`split_cols[1:]`,
`reset_index(drop=True)` being implicit in the list model). -/
def mkBlock (naStr : String) (cells : List String) : Block :=
  let splits := cells.map splitPipe
  Block.mk (padTo (splits.headD []) (maxWidth cells) naStr) splits.tail

/-- The tag-specific header-sentinel column name: `guestcheckid` for `KDS`,
the literal `index` otherwise (lines 136-139). -/
def sentinelName (k : String) : String := if k = "KDS" then "guestcheckid" else "index"

/-- Keep a data row unless its cell in the sentinel column equals the sentinel
name; cells are read positionally, a missing (padded) cell compares unequal. -/
def keepRow (k : String) (header : List String) (r : List String) : Bool :=
  match header.findIdx? (· == sentinelName k) with
  | some i => !(r.get? i == some (sentinelName k))
  | none => true

/-- The post-filter of lines 134-139: for `KDS` the `guestcheckid` column is
demanded (pandas raises `KeyError` when absent), for other tags filtering happens
only when an `index` column exists.  A duplicated sentinel column label routes
pandas through `DataFrame` masking instead of row filtering; that degenerate case
is out of the modelled domain and is rejected as an error here. -/
def filterSentinel (k : String) (b : Block) : Except String Block :=
  match b.header.findIdx? (· == sentinelName k) with
  | none =>
    if k = "KDS" then Except.error "KeyError: guestcheckid" else Except.ok b
  | some _ =>
    if 2 ≤ b.header.count (sentinelName k) then Except.error "duplicate column label"
    else Except.ok (Block.mk b.header (b.rows.filter (keepRow k b.header)))

/-- The per-tag loop of `fetch_blockdata`: tags with no matching rows are skipped
(absent from the mapping), matching tags contribute their filtered block.
Re-running the filter over already-built blocks (the shadowed inner loop of lines
134-139) is idempotent, so one filtering pass per block is observationally equal. -/
def segmentGo (naStr : String) (raw : List (String × String)) :
    List String → Except String (List (String × Block))
  | [] => Except.ok []
  | k :: ks =>
    if (matchRows raw k).isEmpty then segmentGo naStr raw ks
    else
      match filterSentinel k (mkBlock naStr (matchRows raw k)) with
      | Except.error e => Except.error e
      | Except.ok b =>
        match segmentGo naStr raw ks with
        | Except.error e => Except.error e
        | Except.ok rest => Except.ok ((k, b) :: rest)

/-- `SFTPDataFetcher.fetch_blockdata` (lines 119-139): the mapping from block tag
to typed block table (an empty input yields the empty mapping). -/
def fetch_blockdata (naStr : String) (raw : List (String × String)) :
    Except String (List (String × Block)) :=
  segmentGo naStr raw blockKeys

/-! ### PaginatedApiFetcher (`D365_func.py`) -/

/-- One OData record: a JSON object, keys to string values. -/
abbrev Rec : Type := List (String × String)

/-- A record after the optional required-fields projection: `r.get(k)` yields
`none` for an absent key. -/
abbrev ProjRec : Type := List (String × Option String)

/-- One page of an OData response: its `value` records and the optional
`@odata.nextLink` continuation. -/
structure Page where
  vals : List Rec
  nextLink : Option String
deriving DecidableEq

/-- `{k: r.get(k) for k in self.required_fields}` (line 90). -/
def projectRec (ks : List String) (r : Rec) : ProjRec :=
  ks.map (fun k => (k, (r.find? (fun kv => kv.1 == k)).map (fun kv => kv.2)))

/-- A record kept as-is (no projection), with every present value wrapped. -/
def toProj (r : Rec) : ProjRec := r.map (fun kv => (kv.1, some kv.2))

/-- One page's contribution to `all_records` (lines 88-93). -/
def pageRecords (rf : Option (List String)) (recs : List Rec) : List ProjRec :=
  match rf with
  | some ks => recs.map (projectRec ks)
  | none => recs.map toProj

/-- The `while next_url` pagination loop (lines 83-95): the oracle serves the
pages in response order; each page's records are flattened into the accumulator
and the loop continues exactly when the response carries a continuation link. -/
def fetchPagesLoop (rf : Option (List String)) : List Page → List ProjRec
  | [] => []
  | p :: rest =>
    pageRecords rf p.vals ++
      (match p.nextLink with
       | some _ => fetchPagesLoop rf rest
       | none => [])

/-- The pages the loop actually consumes: every page up to and including the
first one without a continuation link. -/
def followedPages : List Page → List Page
  | [] => []
  | p :: rest =>
    p :: (match p.nextLink with
          | some _ => followedPages rest
          | none => [])

/-- A DataFrame: ordered column names plus rows of optional string cells. -/
structure Table where
  cols : List String
  rows : List (List (Option String))
deriving DecidableEq, Repr

/-- `pd.DataFrame()`. -/
def emptyTable : Table := Table.mk [] []

/-- `r.get(k)` on a projected record. -/
def lookupProj (r : ProjRec) (k : String) : Option String :=
  ((r.find? (fun kv => kv.1 == k)).map (fun kv => kv.2)).join

/-- The keys of a projected record, in order. -/
def recKeys (r : ProjRec) : List String := r.map Prod.fst

/-- `pd.DataFrame(all_records)` (line 98): columns are the record keys in first
appearance order, rows read each record at each column. -/
def recordsToTable (recs : List ProjRec) : Table :=
  let cs := dedupFirst id (recs.map recKeys).flatten
  Table.mk cs (recs.map (fun r => cs.map (fun c => lookupProj r c)))

/-- `df[name] = value`: overwrite the column in place when present, otherwise
append it at the end. -/
def setCol (t : Table) (name : String) (v : Option String) : Table :=
  match t.cols.findIdx? (· == name) with
  | some i => Table.mk t.cols (t.rows.map (fun r => r.set i v))
  | none => Table.mk (t.cols ++ [name]) (t.rows.map (fun r => r ++ [v]))

/-- `D365ODataFetcher._fetch_for_country_on_date` (lines 58-104): paginate via
the API oracle (token and day select the served pages; an HTTP failure anywhere
in the unit surfaces as the error), build the DataFrame, then append the two
provenance columns. -/
def fetch_for_country_on_date (rf : Option (List String))
    (api : String → Int → Except String (List Page)) (country : String) (d : Int)
    (token : String) : Except String Table :=
  match api token d with
  | Except.error e => Except.error e
  | Except.ok pages =>
    let t := recordsToTable (fetchPagesLoop rf pages)
    Except.ok (setCol (setCol t "Country" (some country)) "FetchDate" (some (isoDate d)))

/-- An argument value at a Python call site. -/
inductive PyVal
  | vstr (s : String)
  | vint (z : Int)
deriving DecidableEq

/-- A Python exception escaping a D365 fetch: a `TypeError` from argument
binding, or any exception raised while fetching. -/
inductive PyErr
  | typeError (msg : String)
  | exn (msg : String)
deriving DecidableEq

/-- Calling `_fetch_for_country_on_date` with a positional argument list: the
method requires (country, single_date, token), so binding succeeds exactly for
three arguments of those shapes and otherwise raises `TypeError` before the body
runs (every call site passes string/date/string shapes). -/
def call_fetch_for_country_on_date (rf : Option (List String))
    (api : String → Int → Except String (List Page)) (args : List PyVal) :
    Except PyErr Table :=
  match args with
  | [PyVal.vstr c, PyVal.vint dd, PyVal.vstr tok] =>
    match fetch_for_country_on_date rf api c dd tok with
    | Except.ok t => Except.ok t
    | Except.error m => Except.error (PyErr.exn m)
  | _ => Except.error (PyErr.typeError "missing a required positional argument: token")

/-- `drop_duplicates()` on a whole table. -/
def dropDupRows (t : Table) : Table := Table.mk t.cols (dedupFirst id t.rows)

/-- `pd.concat(frames, ignore_index=True)`: columns united in first-appearance
order, every row re-read against the united columns (`none` where its frame
lacks the column). -/
def concatTables (frames : List Table) : Table :=
  let cs := dedupFirst id (frames.map Table.cols).flatten
  Table.mk cs
    (frames.flatMap (fun f =>
      f.rows.map (fun r =>
        cs.map (fun c =>
          match f.cols.findIdx? (· == c) with
          | some i => (r.get? i).join
          | none => none))))

/-- The day loop of `D365ODataFetcher.fetch_country_range` (lines 116-129),
with fuel equal to the number of days left: each day calls the private fetch
with only (country, curr) — two positional arguments. -/
def rangeGo (rf : Option (List String)) (api : String → Int → Except String (List Page))
    (country : String) : Nat → Int → List Table → Except PyErr Table
  | 0, _, frames =>
    if frames.isEmpty then Except.ok emptyTable
    else Except.ok (dropDupRows (concatTables frames))
  | Nat.succ fuel, curr, frames =>
    match call_fetch_for_country_on_date rf api [PyVal.vstr country, PyVal.vint curr] with
    | Except.error e => Except.error e
    | Except.ok df => rangeGo rf api country fuel (curr + 1) (frames ++ [df])

/-- `D365ODataFetcher.fetch_country_range` (lines 106-129): loop over the days of
`[start..end]`, concatenate, deduplicate whole rows; an empty range returns an
empty DataFrame. -/
def fetch_country_range (rf : Option (List String))
    (api : String → Int → Except String (List Page)) (country : String)
    (startD endD : Int) : Except PyErr Table :=
  rangeGo rf api country (endD - startD + 1).toNat startD []

/-- The token-acquisition loop of `fetch_all_countries_on_date` (lines 140-147):
a token error skips that country (`except` → continue), a success records
(country, token) in insertion order. -/
def tokenMap (creds : List (String × String × String))
    (getToken : String → String → Except String String) : List (String × String) :=
  creds.filterMap (fun c =>
    match getToken c.2.1 c.2.2 with
    | Except.ok t => some (c.1, t)
    | Except.error _ => none)

/-- `cols_to_keep` projection of lines 158-162: when required fields are
configured, keep them plus the provenance columns, restricted to the columns
actually present. -/
def projectRequired (rf : Option (List String)) (t : Table) : Table :=
  match rf with
  | none => t
  | some ks =>
    let cs := (ks ++ ["Country", "FetchDate"]).filter (fun c => t.cols.contains c)
    Table.mk cs
      (t.rows.map (fun r =>
        cs.map (fun c =>
          match t.cols.findIdx? (· == c) with
          | some i => (r.get? i).join
          | none => none)))

/-- The per-country fetch loop of lines 151-169: each country's fetch runs inside
`try/except`; a failure skips that country only, a success appends its projected
frame. -/
def framesOf (rf : Option (List String))
    (api : String → Int → Except String (List Page)) (d : Int)
    (tm : List (String × String)) : List Table :=
  tm.filterMap (fun ct =>
    match call_fetch_for_country_on_date rf api
        [PyVal.vstr ct.1, PyVal.vint d, PyVal.vstr ct.2] with
    | Except.ok df => some (projectRequired rf df)
    | Except.error _ => none)

/-- `D365ODataFetcher.fetch_all_countries_on_date` (lines 131-170): authenticate
per country, fetch per authenticated country, concatenate the surviving frames,
or return an empty DataFrame when none survived. -/
def fetch_all_countries_on_date (rf : Option (List String))
    (api : String → Int → Except String (List Page))
    (creds : List (String × String × String))
    (getToken : String → String → Except String String) (d : Int) : Table :=
  let frames := framesOf rf api d (tokenMap creds getToken)
  if frames.isEmpty then emptyTable else concatTables frames

/-- The per-tenant results of exactly the tenants whose token acquisition and
fetch both succeed, in credential order: the specification-level description of
`fetch_all_countries_on_date`'s surviving frames. -/
def succFrames (rf : Option (List String))
    (api : String → Int → Except String (List Page))
    (getToken : String → String → Except String String) (d : Int)
    (creds : List (String × String × String)) : List Table :=
  creds.filterMap (fun c =>
    match getToken c.2.1 c.2.2 with
    | Except.error _ => none
    | Except.ok t =>
      match fetch_for_country_on_date rf api c.1 d t with
      | Except.error _ => none
      | Except.ok df => some (projectRequired rf df))

/-! ### BulkLoader (`PostgreSQL.py`) -/

/-- The outcome the database reports for one `cursor.execute` /
`execute_values` attempt. -/
inductive ExecOutcome
  | ok (cols : List String) (rows : List (List (Option String)))
  | errStale (msg : String)
  | errOther (msg : String)
deriving DecidableEq

/-- An exception escaping `run_query` or `insert_dataframe`: a raw
`InFailedSqlTransaction`, any other raw database error, or the wrapping
`RuntimeError` the client raises itself. -/
inductive PgErr
  | dbStale (msg : String)
  | dbOther (msg : String)
  | runtimeError (msg : String)
deriving DecidableEq

/-- `PostgresClient.run_query` (`PostgreSQL.py` lines 61-82) against an oracle
giving the outcome of the n-th execute attempt.  Returns the result and the
number of execute attempts made.  The first attempt's `InFailedSqlTransaction`
is caught, rolled back and retried once; a failure of that second attempt
propagates raw (nothing catches it); any other first-attempt error is rolled
back and re-raised wrapped as a `RuntimeError`. -/
def run_query (q : String) (outs : Nat → ExecOutcome) :
    Except PgErr (List String × List (List (Option String))) × Nat :=
  match outs 0 with
  | ExecOutcome.ok cols rows => (Except.ok (cols, rows), 1)
  | ExecOutcome.errStale _ =>
    match outs 1 with
    | ExecOutcome.ok cols rows => (Except.ok (cols, rows), 2)
    | ExecOutcome.errStale m2 => (Except.error (PgErr.dbStale m2), 2)
    | ExecOutcome.errOther m2 => (Except.error (PgErr.dbOther m2), 2)
  | ExecOutcome.errOther m =>
    (Except.error (PgErr.runtimeError ("❌ Query failed: " ++ m)), 1)

/-- Rejoin the remainder parts with the dot separator. -/
def joinDots : List String → String
  | [] => ""
  | [s] => s
  | s :: rest => s ++ "." ++ joinDots rest

/-- `table.split(".", 1)`: the schema and the remainder, `none` when the name
holds no dot (the source then raises while unpacking). -/
def splitTable (t : String) : Option (String × String) :=
  match splitOnChar '.' t with
  | [] => none
  | [_] => none
  | h :: rest => some (h, joinDots rest)

/-- `PostgresClient.insert_dataframe` (`PostgreSQL.py` lines 84-112): one
`execute_values` attempt; success commits, any failure rolls back and raises
`RuntimeError(f"❌ Insert {tbl} failed: {e}")` — no retry of any kind.  A
destination without a dot makes the handler itself fail on the unbound `tbl`. -/
def insert_dataframe (table : String) (values : List (List (Option String)))
    (outs : Nat → ExecOutcome) : Except PgErr Unit × Nat :=
  match splitTable table with
  | none => (Except.error (PgErr.dbOther "NameError: tbl"), 0)
  | some (_schema, tbl) =>
    match outs 0 with
    | ExecOutcome.ok _ _ => (Except.ok (), 1)
    | ExecOutcome.errStale m =>
      (Except.error (PgErr.runtimeError ("❌ Insert " ++ tbl ++ " failed: " ++ m)), 1)
    | ExecOutcome.errOther m =>
      (Except.error (PgErr.runtimeError ("❌ Insert " ++ tbl ++ " failed: " ++ m)), 1)

/-! ### Concrete instances used in the claim evaluations -/

/-- A payload with repeated-header rows for tags `SUM` and `OTS`. -/
def c4pay : List (String × String) :=
  [("index|a|b", "SUM"), ("1|x|y", "SUM"), ("index|a|b", "SUM"),
   ("index|c", "OTS"), ("2|z", "OTS"), ("index|c", "OTS")]

/-- The two blocks `fetch_blockdata` produces for `c4pay`: repeated headers gone. -/
def c4expected : List (String × Block) :=
  [("SUM", Block.mk ["index", "a", "b"] [["1", "x", "y"]]),
   ("OTS", Block.mk ["index", "c"] [["2", "z"]])]

/-- A payload whose first `SUM` row is narrower than a later row, plus an `OTS`
block whose only data row repeats the header. -/
def c8raw : List (String × String) :=
  [("a|b", "SUM"), ("1|2|3", "SUM"), ("index|u", "OTS"), ("index|u", "OTS")]

/-- The segmentation result for `c8raw`. -/
def c8m : List (String × Block) := ((fetch_blockdata "None" c8raw).toOption).getD []

/-- The blocks `fetch_blockdata "None" c8raw` yields, written out. -/
def c8expected : List (String × Block) :=
  [("SUM", Block.mk ["a", "b", "None"] [["1", "2", "3"]]),
   ("OTS", Block.mk ["index", "u"] [])]

/-- Header of the block a mapping holds under tag `k` (empty when absent). -/
def blockHeaderOf (m : List (String × Block)) (k : String) : List String :=
  ((m.find? (fun kb => kb.1 == k)).map (fun kb => kb.2.header)).getD []

/-- Data rows of the block a mapping holds under tag `k` (empty when absent). -/
def blockRowsOf (m : List (String × Block)) (k : String) : List (List String) :=
  ((m.find? (fun kb => kb.1 == k)).map (fun kb => kb.2.rows)).getD []

/-- A six-field record with every value the given label. -/
def c5rec (j : Nat) : Rec :=
  [("f1", toString j), ("f2", toString j), ("f3", toString j),
   ("f4", toString j), ("f5", toString j), ("f6", toString j)]

/-- Three pages of two records each; the continuation link is present on pages
one and two and absent on page three. -/
def c5pages : List Page :=
  [Page.mk [c5rec 1, c5rec 2] (some "page2"),
   Page.mk [c5rec 3, c5rec 4] (some "page3"),
   Page.mk [c5rec 5, c5rec 6] none]

/-- A fake API serving `c5pages` for every token and day. -/
def c5api : String → Int → Except String (List Page) := fun _ _ => Except.ok c5pages

/-- View of `Except` as a sum, giving decidable equality. -/
def exceptToSum {ε α : Type} : Except ε α → Sum ε α
  | Except.error e => Sum.inl e
  | Except.ok a => Sum.inr a

instance {ε α : Type} [DecidableEq ε] [DecidableEq α] : DecidableEq (Except ε α) :=
  fun x y =>
    decidable_of_iff (exceptToSum x = exceptToSum y) (by
      cases x <;> cases y <;> simp [exceptToSum])

/-! ## Lemmas about first-occurrence deduplication -/

theorem mem_of_mem_dedupFirstAux {α β : Type} [DecidableEq β] (f : α → β) :
    ∀ (l : List α) (seen : List β) (y : α), y ∈ dedupFirstAux f seen l → y ∈ l := by
  intro l
  induction l with
  | nil => intro seen y h; simp [dedupFirstAux] at h
  | cons x xs ih =>
    intro seen y h
    by_cases hx : f x ∈ seen
    · simp only [dedupFirstAux, if_pos hx] at h
      exact List.mem_cons_of_mem x (ih seen y h)
    · simp only [dedupFirstAux, if_neg hx] at h
      rcases List.mem_cons.mp h with rfl | h2
      · exact List.mem_cons_self _ _
      · exact List.mem_cons_of_mem x (ih _ y h2)

theorem not_seen_of_mem_dedupFirstAux {α β : Type} [DecidableEq β] (f : α → β) :
    ∀ (l : List α) (seen : List β) (y : α), y ∈ dedupFirstAux f seen l → f y ∉ seen := by
  intro l
  induction l with
  | nil => intro seen y h; simp [dedupFirstAux] at h
  | cons x xs ih =>
    intro seen y h
    by_cases hx : f x ∈ seen
    · simp only [dedupFirstAux, if_pos hx] at h
      exact ih seen y h
    · simp only [dedupFirstAux, if_neg hx] at h
      rcases List.mem_cons.mp h with rfl | h2
      · exact hx
      · intro hc
        exact ih _ y h2 (List.mem_cons_of_mem _ hc)

theorem pairwise_dedupFirstAux {α β : Type} [DecidableEq β] (f : α → β) :
    ∀ (l : List α) (seen : List β),
      (dedupFirstAux f seen l).Pairwise (fun a b => f a ≠ f b) := by
  intro l
  induction l with
  | nil => intro seen; simp [dedupFirstAux]
  | cons x xs ih =>
    intro seen
    by_cases hx : f x ∈ seen
    · simp only [dedupFirstAux, if_pos hx]; exact ih seen
    · simp only [dedupFirstAux, if_neg hx]
      refine List.Pairwise.cons ?_ (ih _)
      intro b hb he
      exact not_seen_of_mem_dedupFirstAux f xs _ b hb
        (by rw [← he]; exact List.mem_cons_self _ _)

theorem dedupFirstAux_congr_seen {α β : Type} [DecidableEq β] (f : α → β) :
    ∀ (l : List α) (s₁ s₂ : List β), (∀ b, b ∈ s₁ ↔ b ∈ s₂) →
      dedupFirstAux f s₁ l = dedupFirstAux f s₂ l := by
  intro l
  induction l with
  | nil => intro s₁ s₂ _; rfl
  | cons x xs ih =>
    intro s₁ s₂ h
    by_cases hx : f x ∈ s₁
    · simp only [dedupFirstAux, if_pos hx, if_pos ((h (f x)).mp hx)]
      exact ih _ _ h
    · have hx2 : f x ∉ s₂ := fun c => hx ((h (f x)).mpr c)
      simp only [dedupFirstAux, if_neg hx, if_neg hx2]
      congr 1
      refine ih _ _ ?_
      intro b
      simp only [List.mem_cons]
      exact or_congr Iff.rfl (h b)

theorem dedupFirstAux_append {α β : Type} [DecidableEq β] (f : α → β) :
    ∀ (l₁ l₂ : List α) (seen : List β),
      dedupFirstAux f seen (l₁ ++ l₂) =
        dedupFirstAux f seen l₁ ++
          dedupFirstAux f ((dedupFirstAux f seen l₁).map f ++ seen) l₂ := by
  intro l₁
  induction l₁ with
  | nil => intro l₂ seen; simp [dedupFirstAux]
  | cons x xs ih =>
    intro l₂ seen
    by_cases hx : f x ∈ seen
    · simp only [List.cons_append, dedupFirstAux, if_pos hx]
      exact ih l₂ seen
    · simp only [List.cons_append, dedupFirstAux, if_neg hx]
      rw [show (List.append xs l₂ : List α) = xs ++ l₂ from rfl]
      rw [ih l₂ (f x :: seen)]
      simp only [List.map_cons, List.cons_append]
      congr 1
      congr 1
      apply dedupFirstAux_congr_seen
      intro b
      simp only [List.mem_append, List.mem_cons]
      tauto

theorem dedupFirstAux_eq_self {α β : Type} [DecidableEq β] (f : α → β) :
    ∀ (l : List α) (seen : List β), l.Pairwise (fun a b => f a ≠ f b) →
      (∀ x ∈ l, f x ∉ seen) → dedupFirstAux f seen l = l := by
  intro l
  induction l with
  | nil => intro seen _ _; rfl
  | cons x xs ih =>
    intro seen hp hn
    have hx : f x ∉ seen := hn x (List.mem_cons_self _ _)
    simp only [dedupFirstAux, if_neg hx]
    congr 1
    refine ih _ (List.Pairwise.of_cons hp) ?_
    intro z hz
    simp only [List.mem_cons]
    rintro (he | hs)
    · exact (List.pairwise_cons.mp hp).1 z hz he.symm
    · exact hn z (List.mem_cons_of_mem _ hz) hs

theorem dedupFirstAux_eq_nil {α β : Type} [DecidableEq β] (f : α → β) :
    ∀ (l : List α) (seen : List β), (∀ x ∈ l, f x ∈ seen) →
      dedupFirstAux f seen l = [] := by
  intro l
  induction l with
  | nil => intro _ _; rfl
  | cons x xs ih =>
    intro seen h
    simp only [dedupFirstAux, if_pos (h x (List.mem_cons_self _ _))]
    exact ih seen (fun z hz => h z (List.mem_cons_of_mem _ hz))

theorem exists_rep_dedupFirstAux {α β : Type} [DecidableEq β] (f : α → β) :
    ∀ (l : List α) (seen : List β) (x : α), x ∈ l → f x ∉ seen →
      ∃ y, y ∈ dedupFirstAux f seen l ∧ f y = f x := by
  intro l
  induction l with
  | nil => intro seen x hx _; simp at hx
  | cons a t ih =>
    intro seen x hx hns
    by_cases ha : f a ∈ seen
    · simp only [dedupFirstAux, if_pos ha]
      rcases List.mem_cons.mp hx with rfl | hxt
      · exact absurd ha hns
      · exact ih seen x hxt hns
    · simp only [dedupFirstAux, if_neg ha]
      by_cases hfa : f x = f a
      · exact ⟨a, List.mem_cons_self _ _, hfa.symm⟩
      · rcases List.mem_cons.mp hx with rfl | hxt
        · exact absurd rfl hfa
        · obtain ⟨y, hy, hfy⟩ := ih (f a :: seen) x hxt (by
            simp only [List.mem_cons]
            rintro (h | h)
            · exact hfa h
            · exact hns h)
          exact ⟨y, List.mem_cons_of_mem _ hy, hfy⟩

theorem first_wins_dedupFirstAux {α β : Type} [DecidableEq β] (f : α → β) :
    ∀ (l₁ l₂ : List α) (seen : List β) (x : α), x ∈ l₁ → f x ∉ seen →
      ∃ y, y ∈ l₁ ∧ f y = f x ∧ y ∈ dedupFirstAux f seen (l₁ ++ l₂) := by
  intro l₁
  induction l₁ with
  | nil => intro l₂ seen x hx _; simp at hx
  | cons a t ih =>
    intro l₂ seen x hx hns
    simp only [List.cons_append]
    by_cases ha : f a ∈ seen
    · simp only [dedupFirstAux, if_pos ha]
      rcases List.mem_cons.mp hx with rfl | hxt
      · exact absurd ha hns
      · obtain ⟨y, hy1, hy2, hy3⟩ := ih l₂ seen x hxt hns
        exact ⟨y, List.mem_cons_of_mem _ hy1, hy2, hy3⟩
    · simp only [dedupFirstAux, if_neg ha]
      by_cases hfa : f x = f a
      · exact ⟨a, List.mem_cons_self _ _, hfa.symm, List.mem_cons_self _ _⟩
      · rcases List.mem_cons.mp hx with rfl | hxt
        · exact absurd rfl hfa
        · obtain ⟨y, hy1, hy2, hy3⟩ := ih l₂ (f a :: seen) x hxt (by
            simp only [List.mem_cons]
            rintro (h | h)
            · exact hfa h
            · exact hns h)
          exact ⟨y, List.mem_cons_of_mem _ hy1, hy2, List.mem_cons_of_mem _ hy3⟩

theorem pairwise_key_inj {α β : Type} (f : α → β) (l : List α)
    (hl : l.Pairwise (fun a b => f a ≠ f b)) :
    ∀ a ∈ l, ∀ b ∈ l, f a = f b → a = b := by
  induction hl with
  | nil => intro a ha; simp at ha
  | cons hhead _htail ih =>
    intro a ha b hb hab
    rcases List.mem_cons.mp ha with rfl | hat
    · rcases List.mem_cons.mp hb with rfl | hbt
      · rfl
      · exact absurd hab (hhead b hbt)
    · rcases List.mem_cons.mp hb with rfl | hbt
      · exact absurd hab.symm (hhead a hat)
      · exact ih a hat b hbt hab

/-- C1: for every merge with a declared key column, the merged output never holds
two rows sharing that key value; when an existing row and a newly fetched row
share the key, an existing row with that key is kept and a genuinely new row with
an existing key is not (first occurrence in existing-then-new order wins). -/
theorem merge_key_unique_existing_wins {Row Key : Type} [DecidableEq Key]
    (k : Row → Key) (E N : List Row) :
    (mergeByKey k E N).Pairwise (fun a b => k a ≠ k b)
    ∧ (∀ r, r ∈ E → ∃ rE, rE ∈ E ∧ k rE = k r ∧ rE ∈ mergeByKey k E N)
    ∧ (∀ s, s ∈ mergeByKey k E N → s ∈ N → s ∉ E → ∀ r, r ∈ E → k r ≠ k s) := by
  refine ⟨pairwise_dedupFirstAux k (E ++ N) [], ?_, ?_⟩
  · intro r hr
    obtain ⟨y, hy1, hy2, hy3⟩ :=
      first_wins_dedupFirstAux k E N [] r hr (List.not_mem_nil _)
    exact ⟨y, hy1, hy2, hy3⟩
  · intro s hs hsN hsE r hr hk
    obtain ⟨y, hy1, hy2, hy3⟩ :=
      first_wins_dedupFirstAux k E N [] r hr (List.not_mem_nil _)
    have hys : y = s :=
      pairwise_key_inj k _ (pairwise_dedupFirstAux k (E ++ N) []) y hy3 s hs
        (by rw [hy2, hk])
    exact hsE (hys ▸ hy1)

theorem merge_key_unique_existing_wins_witness :
    mergeByKey (Prod.fst : Nat × Nat → Nat) [(1, 10), (2, 20)] [(1, 99), (3, 30)] =
      [(1, 10), (2, 20), (3, 30)]
    ∧ Prod.fst ((1, 10) : Nat × Nat) ≠ Prod.fst ((3, 30) : Nat × Nat) := by
  constructor
  · decide
  · exact (merge_key_unique_existing_wins Prod.fst [(1, 10), (2, 20)] [(1, 99), (3, 30)]).2.2
      (3, 30) (by decide) (by decide) (by decide) (1, 10) (by decide)

/-- C2: merging is idempotent — merging the new table into the result of a first
merge (concatenate existing-then-new, remove duplicate whole rows) changes
nothing. -/
theorem merge_whole_row_idempotent {Row : Type} [DecidableEq Row] (E N : List Row) :
    mergeWholeRow (mergeWholeRow E N) N = mergeWholeRow E N := by
  unfold mergeWholeRow dedupFirst
  rw [dedupFirstAux_append]
  have h1 : dedupFirstAux id [] (dedupFirstAux id [] (E ++ N)) =
      dedupFirstAux id [] (E ++ N) := by
    refine dedupFirstAux_eq_self id _ [] (pairwise_dedupFirstAux id (E ++ N) []) ?_
    intro x _
    exact List.not_mem_nil _
  rw [h1]
  have h2 : dedupFirstAux id
      ((dedupFirstAux id [] (E ++ N)).map id ++ []) N = [] := by
    refine dedupFirstAux_eq_nil id _ _ ?_
    intro x hx
    have hxM : x ∈ dedupFirstAux id [] (E ++ N) := by
      obtain ⟨y, hy1, hy2⟩ := exists_rep_dedupFirstAux id (E ++ N) [] x
        (List.mem_append_right E hx) (List.not_mem_nil _)
      have hyx : y = x := hy2
      exact hyx ▸ hy1
    simpa using hxM
  rw [h2, List.append_nil]

/-! ## BulkLoader claims -/

/-- C3 counterexample: on a stale-transaction failure the bulk-insert path makes
exactly one execute attempt (no retry) and raises the wrapping load error at
once, and `run_query`'s second consecutive failure surfaces as the raw database
error, not as a load error naming a destination — contradicting the claim that
the bulk-load path re-executes once on the stale condition. -/
theorem bulk_insert_no_retry_counterexample :
    (insert_dataframe "public.sales" [] (fun _ => ExecOutcome.errStale "stale")).2 = 1
    ∧ insert_dataframe "public.sales" [] (fun _ => ExecOutcome.errStale "stale") =
        (Except.error (PgErr.runtimeError "❌ Insert sales failed: stale"), 1)
    ∧ (run_query "SELECT 1" (fun _ => ExecOutcome.errStale "stale")).1 =
        Except.error (PgErr.dbStale "stale")
    ∧ (1 : Nat) ≠ 2 := by
  refine ⟨by decide, by decide, by decide, by decide⟩

/-- C3 amended: the query path (`run_query`) retries exactly once, and only on
the stale-transaction condition — any other first-attempt error is rolled back
and re-raised immediately as a wrapped query failure — and a second consecutive
failure of the query path surfaces as the raw database error; the bulk-insert
path (`insert_dataframe`) never retries and wraps every failure as a load error
naming the destination table. -/
theorem retry_once_query_path_only (outs : Nat → ExecOutcome) (q table : String)
    (values : List (List (Option String))) (cols : List String)
    (rows : List (List (Option String))) (m m2 schema tbl : String) :
    (outs 0 = ExecOutcome.ok cols rows → run_query q outs = (Except.ok (cols, rows), 1))
    ∧ (outs 0 = ExecOutcome.errOther m →
        run_query q outs =
          (Except.error (PgErr.runtimeError ("❌ Query failed: " ++ m)), 1))
    ∧ (outs 0 = ExecOutcome.errStale m → (run_query q outs).2 = 2)
    ∧ (outs 0 = ExecOutcome.errStale m → outs 1 = ExecOutcome.ok cols rows →
        run_query q outs = (Except.ok (cols, rows), 2))
    ∧ (outs 0 = ExecOutcome.errStale m → outs 1 = ExecOutcome.errStale m2 →
        run_query q outs = (Except.error (PgErr.dbStale m2), 2))
    ∧ (outs 0 = ExecOutcome.errStale m → outs 1 = ExecOutcome.errOther m2 →
        run_query q outs = (Except.error (PgErr.dbOther m2), 2))
    ∧ (splitTable table = some (schema, tbl) → (insert_dataframe table values outs).2 = 1)
    ∧ (splitTable table = some (schema, tbl) → outs 0 = ExecOutcome.errStale m →
        insert_dataframe table values outs =
          (Except.error (PgErr.runtimeError ("❌ Insert " ++ tbl ++ " failed: " ++ m)), 1))
    ∧ (splitTable table = some (schema, tbl) → outs 0 = ExecOutcome.errOther m →
        insert_dataframe table values outs =
          (Except.error (PgErr.runtimeError ("❌ Insert " ++ tbl ++ " failed: " ++ m)), 1)) := by
  refine ⟨?_, ?_, ?_, ?_, ?_, ?_, ?_, ?_, ?_⟩
  · intro h; simp [run_query, h]
  · intro h; simp [run_query, h]
  · intro h
    cases h1 : outs 1 <;> simp [run_query, h, h1]
  · intro h h1; simp [run_query, h, h1]
  · intro h h1; simp [run_query, h, h1]
  · intro h h1; simp [run_query, h, h1]
  · intro h
    cases h0 : outs 0 <;> simp [insert_dataframe, h, h0]
  · intro h h0; simp [insert_dataframe, h, h0]
  · intro h h0; simp [insert_dataframe, h, h0]

theorem retry_once_query_path_only_witness :
    run_query "q" (fun n => if n = 0 then ExecOutcome.errStale "a"
        else ExecOutcome.ok ["c"] []) = (Except.ok (["c"], []), 2)
    ∧ (insert_dataframe "s.t" [] (fun _ => ExecOutcome.errOther "boom")).2 = 1 := by
  constructor
  · exact (retry_once_query_path_only
      (fun n => if n = 0 then ExecOutcome.errStale "a" else ExecOutcome.ok ["c"] [])
      "q" "s.t" [] ["c"] [] "a" "x" "s" "t").2.2.2.1 (by decide) (by decide)
  · exact (retry_once_query_path_only (fun _ => ExecOutcome.errOther "boom")
      "q" "s.t" [] [] [] "m" "x" "s" "t").2.2.2.2.2.2.1 (by decide)

/-! ## TimeWindowDiscovery claim -/

/-- C7: for every range with start ≤ end, the discovery loop enumerates exactly
`(end - start).days + 1` calendar dates, inclusive of both endpoints and
ascending, builds the listing name as `<prefix>-export-<date>` with the date
formatted `dd-mm-yyyy`, and an object store listing zero keys everywhere makes
the fetch return every marker with an empty accumulation rather than an error. -/
theorem time_window_enumeration (startD endD : Int) (h : startD ≤ endD) :
    (enumDates startD endD).length = (endD - startD).toNat + 1
    ∧ startD ∈ enumDates startD endD
    ∧ endD ∈ enumDates startD endD
    ∧ (enumDates startD endD).Pairwise (fun a b => a < b)
    ∧ (∀ pfx d, listKeyPref pfx d = pfx ++ "-export-" ++ strftimeDMY d)
    ∧ strftimeDMY (daysFromCivil 2024 1 31) = "31-01-2024"
    ∧ (∀ (buckets : List (String × String)) (pfxs : List String)
        (parseZip : String → String → String → List Table),
        s3_fetch_data buckets pfxs startD endD (fun _b _k => []) parseZip =
          pfxs.map (fun p => (p, []))) := by
  refine ⟨?_, ?_, ?_, ?_, ?_, ?_, ?_⟩
  · simp only [enumDates, List.length_map, List.length_range]
    omega
  · simp only [enumDates, List.mem_map, List.mem_range]
    exact ⟨0, by omega, by omega⟩
  · simp only [enumDates, List.mem_map, List.mem_range]
    exact ⟨(endD - startD).toNat, by omega, by omega⟩
  · refine List.Pairwise.map _ ?_ (List.pairwise_lt_range _)
    intro a b hab
    omega
  · intro pfx d; rfl
  · decide
  · intro buckets pfxs parseZip
    simp [s3_fetch_data, blocksFor]

theorem time_window_enumeration_witness :
    ((0 : Int) ≤ 2) ∧ (enumDates 0 2).length = ((2 : Int) - 0).toNat + 1 :=
  ⟨by decide, (time_window_enumeration 0 2 (by decide)).1⟩

/-! ## Range-fetch arity claim -/

/-- C10: for every country and every non-empty range (start ≤ end),
`fetch_country_range` raises a `TypeError` before returning any table, because
the per-day private fetch is invoked without its required token argument; only
an empty range (start > end) returns an (empty) table. -/
theorem range_fetch_arity_error (rf : Option (List String))
    (api : String → Int → Except String (List Page)) (country : String)
    (startD endD : Int) :
    (startD ≤ endD → fetch_country_range rf api country startD endD =
        Except.error (PyErr.typeError "missing a required positional argument: token"))
    ∧ (endD < startD →
        fetch_country_range rf api country startD endD = Except.ok emptyTable) := by
  constructor
  · intro h
    unfold fetch_country_range
    have hn : (endD - startD + 1).toNat = (endD - startD).toNat + 1 := by omega
    rw [hn]
    rfl
  · intro h
    unfold fetch_country_range
    have hn : (endD - startD + 1).toNat = 0 := by omega
    rw [hn]
    rfl

theorem range_fetch_arity_error_witness :
    fetch_country_range none (fun _ _ => Except.ok []) "TH" 0 0 =
        Except.error (PyErr.typeError "missing a required positional argument: token")
    ∧ fetch_country_range none (fun _ _ => Except.ok []) "TH" 1 0 = Except.ok emptyTable := by
  constructor
  · exact (range_fetch_arity_error none (fun _ _ => Except.ok []) "TH" 0 0).1 (by decide)
  · exact (range_fetch_arity_error none (fun _ _ => Except.ok []) "TH" 1 0).2 (by decide)

/-! ## BlockSegmenter claims -/

theorem filterSentinel_ok (k : String) (B b : Block)
    (h : filterSentinel k B = Except.ok b) :
    b.header = B.header ∧ b.rows = B.rows.filter (keepRow k B.header) := by
  unfold filterSentinel at h
  cases hidx : B.header.findIdx? (· == sentinelName k) with
  | none =>
    rw [hidx] at h
    by_cases hk : k = "KDS"
    · rw [if_pos hk] at h
      cases h
    · rw [if_neg hk] at h
      cases h
      refine ⟨rfl, ?_⟩
      symm
      rw [List.filter_eq_self]
      intro r _hr
      unfold keepRow
      rw [hidx]
  | some i =>
    rw [hidx] at h
    by_cases hc : 2 ≤ B.header.count (sentinelName k)
    · rw [if_pos hc] at h
      cases h
    · rw [if_neg hc] at h
      cases h
      exact ⟨rfl, rfl⟩

theorem segmentGo_mem (naStr : String) (raw : List (String × String)) :
    ∀ (ks : List String) (m : List (String × Block)),
      segmentGo naStr raw ks = Except.ok m →
      ∀ kb, kb ∈ m → matchRows raw kb.1 ≠ [] ∧
        filterSentinel kb.1 (mkBlock naStr (matchRows raw kb.1)) = Except.ok kb.2 := by
  intro ks
  induction ks with
  | nil =>
    intro m h kb hkb
    cases h
    simp at hkb
  | cons k rest ih =>
    intro m h kb hkb
    simp only [segmentGo] at h
    by_cases hc : (matchRows raw k).isEmpty
    · rw [if_pos hc] at h
      exact ih m h kb hkb
    · rw [if_neg hc] at h
      cases hf : filterSentinel k (mkBlock naStr (matchRows raw k)) with
      | error e => rw [hf] at h; cases h
      | ok b =>
        rw [hf] at h
        cases hrest : segmentGo naStr raw rest with
        | error e => rw [hrest] at h; cases h
        | ok m2 =>
          rw [hrest] at h
          cases h
          rcases List.mem_cons.mp hkb with rfl | hkb2
          · refine ⟨?_, hf⟩
            intro hnil
            rw [hnil] at hc
            exact hc rfl
          · exact ih m2 hrest kb hkb2

theorem segmentGo_present (naStr : String) (raw : List (String × String)) :
    ∀ (ks : List String) (m : List (String × Block)),
      segmentGo naStr raw ks = Except.ok m →
      ∀ k, k ∈ ks → matchRows raw k ≠ [] → ∃ b, (k, b) ∈ m := by
  intro ks
  induction ks with
  | nil => intro m h k hk; simp at hk
  | cons k0 rest ih =>
    intro m h k hk hne
    simp only [segmentGo] at h
    by_cases hc : (matchRows raw k0).isEmpty
    · rw [if_pos hc] at h
      rcases List.mem_cons.mp hk with rfl | hk2
      · cases hmr : matchRows raw k with
        | nil => exact absurd hmr hne
        | cons a t => rw [hmr] at hc; simp at hc
      · exact ih m h k hk2 hne
    · rw [if_neg hc] at h
      cases hf : filterSentinel k0 (mkBlock naStr (matchRows raw k0)) with
      | error e => rw [hf] at h; cases h
      | ok b =>
        rw [hf] at h
        cases hrest : segmentGo naStr raw rest with
        | error e => rw [hrest] at h; cases h
        | ok m2 =>
          rw [hrest] at h
          cases h
          rcases List.mem_cons.mp hk with rfl | hk2
          · exact ⟨b, List.mem_cons_self _ _⟩
          · obtain ⟨b2, hb2⟩ := ih m2 hrest k hk2 hne
            exact ⟨b2, List.mem_cons_of_mem _ hb2⟩

theorem foldl_max_le (xs : List Nat) : ∀ (a : Nat), (∀ x ∈ xs, x ≤ a) →
    xs.foldl Nat.max a = a := by
  induction xs with
  | nil => intro a _; rfl
  | cons x t ih =>
    intro a h
    simp only [List.foldl_cons]
    have hx : x ≤ a := h x (List.mem_cons_self _ _)
    have hax : Nat.max a x = a := by unfold Nat.max; omega
    rw [hax]
    exact ih a (fun z hz => h z (List.mem_cons_of_mem _ hz))

theorem maxWidth_eq_head (cell : String) (cells : List String)
    (h : ∀ c ∈ cells, (splitPipe c).length ≤ (splitPipe cell).length) :
    maxWidth (cell :: cells) = (splitPipe cell).length := by
  unfold maxWidth
  simp only [List.map_cons, List.foldl_cons]
  have h0 : Nat.max 0 (splitPipe cell).length = (splitPipe cell).length := by
    unfold Nat.max; omega
  rw [h0]
  refine foldl_max_le _ _ ?_
  intro x hx
  obtain ⟨c, hc, rfl⟩ := List.mem_map.mp hx
  exact h c hc

theorem padTo_of_le (l : List String) (w : Nat) (fill : String) (h : w ≤ l.length) :
    padTo l w fill = l := by
  unfold padTo
  rw [Nat.sub_eq_zero_of_le h, List.replicate_zero, List.append_nil]

/-- C4: every data row whose cell in the tag-specific header-sentinel column
(`guestcheckid` for the designated tag `KDS`, the literal column name `index`
for every other tag) repeats the sentinel is dropped from the block's output;
in particular the `SUM`/`OTS` payload yields exactly two typed block tables,
each with zero rows equal to the header sentinel. -/
theorem sentinel_rows_dropped :
    (∀ (naStr : String) (raw : List (String × String)) (m : List (String × Block)),
      fetch_blockdata naStr raw = Except.ok m →
      ∀ k b, (k, b) ∈ m →
        ∀ i, b.header.findIdx? (· == sentinelName k) = some i →
          ∀ r, r ∈ b.rows → r.get? i ≠ some (sentinelName k))
    ∧ fetch_blockdata "None" c4pay = Except.ok c4expected := by
  constructor
  · intro naStr raw m hm k b hkb i hi r hr
    obtain ⟨_, hf⟩ := segmentGo_mem naStr raw blockKeys m hm (k, b) hkb
    obtain ⟨hh, hrows⟩ := filterSentinel_ok k _ b hf
    rw [hrows] at hr
    obtain ⟨hmem, hkeep⟩ := List.mem_filter.mp hr
    rw [hh] at hi
    simp only [keepRow, hi] at hkeep
    intro hc
    rw [hc] at hkeep
    simp at hkeep
  · rfl

theorem sentinel_rows_dropped_witness :
    (["2", "z"] : List String).get? 0 ≠ some (sentinelName "OTS") :=
  sentinel_rows_dropped.1 "None" c4pay c4expected sentinel_rows_dropped.2
    "OTS" (Block.mk ["index", "c"] [["2", "z"]]) (by decide) 0 (by decide)
    ["2", "z"] (by decide)

/-- C8 counterexample: on a block whose first matching row is narrower than a
later one, the output column names are NOT the first split row's field values
(pandas pads them to the widest row), and a data row removed by the header
post-filter shows the data rows are not exactly the remaining split rows. -/
theorem header_padding_counterexample :
    (blockHeaderOf c8m "SUM").length = 3
    ∧ (splitPipe "a|b").length = 2
    ∧ blockHeaderOf c8m "SUM" ≠ splitPipe "a|b"
    ∧ blockRowsOf c8m "OTS" = []
    ∧ ((matchRows c8raw "OTS").map splitPipe).tail ≠ blockRowsOf c8m "OTS" := by
  refine ⟨by decide, by decide, by decide, by decide, by decide⟩

/-- C8 amended: for every tag with matching rows the block is present, its
column names are the first matching row's pipe-split fields padded to the
widest matching row's field count with the null-filler string — exactly the
first row's fields whenever no later row is wider — and its data rows are the
remaining split rows (reindexed from zero) minus the rows removed by the
header-sentinel post-filter; tags with no matching rows are absent. -/
theorem block_segmentation_shape (naStr : String) (raw : List (String × String))
    (m : List (String × Block)) (h : fetch_blockdata naStr raw = Except.ok m) :
    (∀ k b, (k, b) ∈ m → matchRows raw k ≠ [])
    ∧ (∀ k, k ∈ blockKeys → matchRows raw k ≠ [] → ∃ b, (k, b) ∈ m)
    ∧ (∀ k b cell cells, (k, b) ∈ m → matchRows raw k = cell :: cells →
        b.header = padTo (splitPipe cell) (maxWidth (cell :: cells)) naStr
        ∧ b.rows = ((cell :: cells).map splitPipe).tail.filter (keepRow k b.header)
        ∧ ((∀ c ∈ cells, (splitPipe c).length ≤ (splitPipe cell).length) →
            b.header = splitPipe cell)) := by
  refine ⟨?_, ?_, ?_⟩
  · intro k b hkb
    exact (segmentGo_mem naStr raw blockKeys m h (k, b) hkb).1
  · intro k hk hne
    exact segmentGo_present naStr raw blockKeys m h k hk hne
  · intro k b cell cells hkb hmr
    obtain ⟨_, hf⟩ := segmentGo_mem naStr raw blockKeys m h (k, b) hkb
    rw [hmr] at hf
    obtain ⟨hh, hrows⟩ := filterSentinel_ok k _ b hf
    have hhead : b.header = padTo (splitPipe cell) (maxWidth (cell :: cells)) naStr := by
      rw [hh]
      rfl
    refine ⟨hhead, ?_, ?_⟩
    · rw [hrows, hh]
      rfl
    · intro hmax
      rw [hhead, maxWidth_eq_head cell cells hmax]
      exact padTo_of_le _ _ _ (Nat.le_refl _)

theorem block_segmentation_shape_witness :
    matchRows c8raw "SUM" ≠ [] :=
  (block_segmentation_shape "None" c8raw c8expected rfl).1 "SUM"
    (Block.mk ["a", "b", "None"] [["1", "2", "3"]]) (by decide)

/-! ## PaginatedApiFetcher claims -/

theorem recKeys_pageRecords (ks : List String) (recs : List Rec) (r : ProjRec)
    (hr : r ∈ pageRecords (some ks) recs) : recKeys r = ks := by
  simp only [pageRecords] at hr
  obtain ⟨rec, _hrec, rfl⟩ := List.mem_map.mp hr
  simp only [recKeys, projectRec, List.map_map]
  exact List.map_id ks

theorem recKeys_fetchPagesLoop (ks : List String) :
    ∀ (pages : List Page) (r : ProjRec),
      r ∈ fetchPagesLoop (some ks) pages → recKeys r = ks := by
  intro pages
  induction pages with
  | nil => intro r hr; simp [fetchPagesLoop] at hr
  | cons p rest ih =>
    intro r hr
    simp only [fetchPagesLoop] at hr
    rcases List.mem_append.mp hr with h1 | h2
    · exact recKeys_pageRecords ks p.vals r h1
    · cases hnl : p.nextLink with
      | some l =>
        rw [hnl] at h2
        exact ih r h2
      | none =>
        rw [hnl] at h2
        simp at h2

theorem fetchPagesLoop_eq_followed (rf : Option (List String)) :
    ∀ (pages : List Page),
      fetchPagesLoop rf pages =
        (followedPages pages).flatMap (fun p => pageRecords rf p.vals) := by
  intro pages
  induction pages with
  | nil => rfl
  | cons p rest ih =>
    simp only [fetchPagesLoop, followedPages]
    cases hnl : p.nextLink with
    | some l =>
      simp only [List.flatMap_cons]
      rw [ih]
    | none =>
      simp [List.flatMap_cons]

/-- C5 counterexample: the fake API of 3 pages × 2 six-field records, with a
four-field projection, yields 6 records and 6 logical columns (4 projected + 2
provenance) — not the 8 the claim states. -/
theorem projection_column_count_counterexample :
    ((fetch_for_country_on_date (some ["f1", "f2", "f3", "f4"]) c5api "TH" 19724
        "tok").map (fun t => (t.rows.length, t.cols.length)) = Except.ok (6, 6))
    ∧ ((6 : Nat) ≠ 8) := ⟨by decide, by decide⟩

/-- C5 amended: the fetcher follows the continuation link of each response until
absent and the result before provenance columns is exactly the concatenation of
the followed pages' records in page order; with required fields configured every
accumulated record is projected to exactly those fields; the 3-page × 2-record
fake API with a 4-field projection of 6-field records yields 6 records and, after
the 2 provenance columns, 6 logical columns (not 8). -/
theorem pagination_concat_projection (rf : Option (List String)) (pages : List Page)
    (ks : List String) :
    (fetchPagesLoop rf pages =
      (followedPages pages).flatMap (fun p => pageRecords rf p.vals))
    ∧ (rf = some ks → ∀ r, r ∈ fetchPagesLoop rf pages → recKeys r = ks)
    ∧ ((fetch_for_country_on_date (some ["f1", "f2", "f3", "f4"]) c5api "TH" 19724
        "tok").map (fun t => (t.rows.length, t.cols.length)) = Except.ok (6, 6)) := by
  refine ⟨fetchPagesLoop_eq_followed rf pages, ?_, by decide⟩
  rintro rfl r hr
  exact recKeys_fetchPagesLoop ks pages r hr

theorem pagination_concat_projection_witness :
    recKeys (projectRec ["a"] [("a", "1"), ("b", "2")]) = ["a"] :=
  (pagination_concat_projection (some ["a"])
      [Page.mk [[("a", "1"), ("b", "2")]] none] ["a"]).2.1 rfl
    (projectRec ["a"] [("a", "1"), ("b", "2")]) (by decide)

theorem framesOf_tokenMap (rf : Option (List String))
    (api : String → Int → Except String (List Page)) (d : Int)
    (getToken : String → String → Except String String) :
    ∀ (creds : List (String × String × String)),
      framesOf rf api d (tokenMap creds getToken) =
        succFrames rf api getToken d creds := by
  intro creds
  induction creds with
  | nil => rfl
  | cons c cs ih =>
    cases htok : getToken c.2.1 c.2.2 with
    | error e =>
      simp only [tokenMap, succFrames, List.filterMap_cons, htok] at ih ⊢
      exact ih
    | ok t =>
      cases hf : fetch_for_country_on_date rf api c.1 d t with
      | error msg =>
        simp only [tokenMap, succFrames, framesOf, List.filterMap_cons, htok, hf,
          call_fetch_for_country_on_date] at ih ⊢
        exact ih
      | ok df =>
        simp only [tokenMap, succFrames, framesOf, List.filterMap_cons, htok, hf,
          call_fetch_for_country_on_date] at ih ⊢
        rw [ih]

/-- C6: every tenant failure (token acquisition or fetch) is caught at the
tenant boundary: the multi-tenant single-day result is exactly the concatenation
of the per-tenant (projected) tables of the tenants that succeeded, and an empty
table — not an error — when every tenant fails. -/
theorem tenant_failure_isolation (rf : Option (List String))
    (api : String → Int → Except String (List Page))
    (creds : List (String × String × String))
    (getToken : String → String → Except String String) (d : Int) :
    (fetch_all_countries_on_date rf api creds getToken d =
      if (succFrames rf api getToken d creds).isEmpty then emptyTable
      else concatTables (succFrames rf api getToken d creds))
    ∧ (succFrames rf api getToken d creds = [] →
        fetch_all_countries_on_date rf api creds getToken d = emptyTable) := by
  have he := framesOf_tokenMap rf api d getToken creds
  constructor
  · unfold fetch_all_countries_on_date
    rw [he]
  · intro h0
    unfold fetch_all_countries_on_date
    rw [he, h0]
    rfl

theorem tenant_failure_isolation_witness :
    fetch_all_countries_on_date none c5api [("TH", "i", "s")]
      (fun _ _ => Except.error "401") 0 = emptyTable :=
  (tenant_failure_isolation none c5api [("TH", "i", "s")]
      (fun _ _ => Except.error "401") 0).2 (by decide)

/-! ## SFTP window-filter claim -/

/-- C9 counterexample: a filename that merely contains the configured marker as
a substring — without starting with it — is returned by the window filter, so
the result is not "exactly the prefix-matching files". -/
theorem substring_not_prefix_counterexample :
    filter_files_by_date "data" (daysFromCivil 2024 1 1) (daysFromCivil 2024 12 31)
        ["xdata_2024-01-05"] = ["xdata_2024-01-05"]
    ∧ listStarts "data".toList "xdata_2024-01-05".toList = false := ⟨by decide, by decide⟩

/-- C9 amended: the returned list is a sorted permutation of exactly those files
that contain the configured marker as a substring and whose trailing date token
parses to a date inside the window; a file whose trailing token fails to parse
is silently excluded, never an error. -/
theorem date_window_filter (filePfx : String) (startD endD : Int)
    (files : List String) :
    (filter_files_by_date filePfx startD endD files).Perm
      (files.filter (fun f =>
        listSub filePfx.toList f.toList &&
          match parseYMD (lastTok f) with
          | some d => decide (startD ≤ d ∧ d ≤ endD)
          | none => false))
    ∧ List.Sorted (fun a b : String => a ≤ b)
        (filter_files_by_date filePfx startD endD files)
    ∧ (∀ f, f ∈ filter_files_by_date filePfx startD endD files ↔
        f ∈ files ∧ listSub filePfx.toList f.toList = true ∧
          ∃ dd, parseYMD (lastTok f) = some dd ∧ startD ≤ dd ∧ dd ≤ endD)
    ∧ (∀ f, parseYMD (lastTok f) = none →
        f ∉ filter_files_by_date filePfx startD endD files) := by
  refine ⟨List.perm_insertionSort _ _, List.sorted_insertionSort _ _, ?_, ?_⟩
  · intro f
    rw [show filter_files_by_date filePfx startD endD files =
        List.insertionSort (fun a b : String => a ≤ b) (files.filter _) from rfl]
    rw [(List.perm_insertionSort _ _).mem_iff, List.mem_filter]
    constructor
    · rintro ⟨hmem, hp⟩
      rw [Bool.and_eq_true] at hp
      obtain ⟨h1, h2⟩ := hp
      refine ⟨hmem, h1, ?_⟩
      cases hp2 : parseYMD (lastTok f) with
      | none => rw [hp2] at h2; cases h2
      | some dd =>
        rw [hp2] at h2
        have := of_decide_eq_true h2
        exact ⟨dd, rfl, this.1, this.2⟩
    · rintro ⟨hmem, hsub, dd, hdd, h1, h2⟩
      refine ⟨hmem, ?_⟩
      rw [Bool.and_eq_true]
      refine ⟨hsub, ?_⟩
      rw [hdd]
      exact decide_eq_true ⟨h1, h2⟩
  · intro f hf hmem
    have h2 := (List.perm_insertionSort (fun a b : String => a ≤ b) _).mem_iff.mp hmem
    have h3 := (List.mem_filter.mp h2).2
    rw [hf] at h3
    simp at h3

theorem date_window_filter_witness :
    "F_bad" ∉ filter_files_by_date "F" 0 20000 ["F_2024-01-02", "F_bad"] :=
  (date_window_filter "F" 0 20000 ["F_2024-01-02", "F_bad"]).2.2.2 "F_bad" (by decide)

end Pipeline
